import Mathlib

/-!
Formal model of the FPP SMS plugin (`sms_plugin.py`): the intake/validation
pipeline, the Twilio polling cursor loop, the audit log and the display
worker, embedded shallowly.  Strings are modelled as lists of characters,
timestamps as natural-number day indices, Twilio message SIDs as naturals
(ordered by recency).
-/

namespace SmsPlugin

/-- Strings of the Python program, modelled as lists of characters. -/
abbrev Str := List Char

/-- Python whitespace class (the characters matched by `\s` and stripped
by `str.strip()`), restricted to ASCII. -/
def isPySpace (c : Char) : Bool :=
  c = ' ' || c = '\t' || c = '\n' || c = '\r' || c = '\x0b' || c = '\x0c'

/-- Python `str.strip()`: drop whitespace from both ends. -/
def stripL (s : Str) : Str :=
  ((s.dropWhile isPySpace).reverse.dropWhile isPySpace).reverse

/-- Python `str.lower()` on ASCII. -/
def lowerL (s : Str) : Str := s.map Char.toLower

/-- The regex word-character class `\w` (ASCII): letters, digits, underscore. -/
def isWordChar (c : Char) : Bool := c.isAlpha || c.isDigit || c = '_'

/-- The configuration keys the pipeline reads, with the source defaults
(`DEFAULT_CONFIG`). -/
structure Config where
  enabled : Bool := false
  poll_interval : Nat := 2
  display_duration : Nat := 10
  max_messages_per_phone : Nat := 5
  max_message_length : Nat := 100
  one_word_only : Bool := false
  two_words_max : Bool := true
  use_whitelist : Bool := false
  profanity_filter : Bool := true
deriving DecidableEq

/-- The greeting alternatives of the regex
`^(hi|hello|hey|merry christmas|happy holidays)` in `extract_name`,
in source order, lowercased as the regex is case-insensitive. -/
def greetings : List Str :=
  [("hi".toList), ("hello".toList), ("hey".toList),
   ("merry christmas".toList), ("happy holidays".toList)]

/-- The trailing class `[,!.\s]*` of the greeting regex. -/
def isGreetTrail (c : Char) : Bool :=
  c = ',' || c = '!' || c = '.' || isPySpace c

/-- `re.sub(r'^(hi|...)[,!.\s]*', '', s, flags=IGNORECASE)`: if some
alternative matches case-insensitively at the start, remove it together
with the following punctuation/whitespace run; otherwise leave `s`. -/
def stripGreeting (s : Str) : Str :=
  match greetings.find? (fun g => lowerL (s.take g.length) = g) with
  | none => s
  | some g => (s.drop g.length).dropWhile isGreetTrail

/-- The character class kept by `re.sub(r'[^a-zA-Z\s-]', '', s)`. -/
def keepNameChar (c : Char) : Bool := c.isAlpha || isPySpace c || c = '-'

/-- Python `str.title()` (on the post-filter alphabet): an alphabetic
character is uppercased when the previous character is not alphabetic,
lowercased otherwise; other characters pass through.  The boolean carries
whether the previous character was alphabetic. -/
def titleCaseAux : Bool → Str → Str
  | _, [] => []
  | prevAlpha, c :: cs =>
      (if c.isAlpha then (if prevAlpha then c.toLower else c.toUpper) else c)
        :: titleCaseAux c.isAlpha cs

def titleCase (s : Str) : Str := titleCaseAux false s

/-- `extract_name` from the source: strip, remove a leading greeting,
remove characters outside letters/whitespace/hyphen, strip, title-case a
non-empty remainder, then return its truncation to `max_message_length`,
or the literal `"Guest"` when the remainder is empty. -/
def extract_name (cfg : Config) (message : Str) : Str :=
  let m1 := stripL message
  let m2 := stripGreeting m1
  let m3 := m2.filter keepNameChar
  let m4 := stripL m3
  let m5 := if m4 = [] then m4 else titleCase m4
  if m5 = [] then ("Guest".toList) else m5.take cfg.max_message_length

/-- Python `str.split()` with no argument: split on whitespace runs,
dropping empty pieces. -/
def pySplit (s : Str) : List Str :=
  (List.splitOnP (fun c => isPySpace c) s).filter (fun w => w ≠ [])

/-- `is_valid_name` from the source (the boolean component): word-count
policy (`one_word_only`, else `two_words_max`) plus the 50-character
ceiling on the whitespace-normalised text. -/
def is_valid_name (cfg : Config) (text0 : Str) : Bool :=
  let words := pySplit text0
  let text := List.intercalate ([' ']) words
  if cfg.one_word_only then
    if words.length ≠ 1 then false else decide (text.length ≤ 50)
  else if cfg.two_words_max then
    if words.length > 2 then false else decide (text.length ≤ 50)
  else decide (text.length ≤ 50)

/-- Line-file loading shared by `load_whitelist` and `load_blacklist`:
`[line.strip().lower() for line in f if line.strip()]`. -/
def loadLines (lines : List Str) : List Str :=
  (lines.filter (fun l => stripL l ≠ [])).map (fun l => lowerL (stripL l))

def load_whitelist (lines : List Str) : List Str := loadLines lines

def load_blacklist (lines : List Str) : List Str := loadLines lines

/-- `is_on_whitelist`: pass when whitelist mode is off or the loaded
whitelist is empty; otherwise membership of `name.lower().strip()`. -/
def is_on_whitelist (cfg : Config) (wl : List Str) (name : Str) : Bool :=
  if !cfg.use_whitelist then true
  else if wl = [] then true
  else decide (stripL (lowerL name) ∈ wl)

/-- Word-character status of an optional character; absent characters
(string edges) count as non-word, as for the regex `\b`. -/
def optWord : Option Char → Bool
  | none => false
  | some c => isWordChar c

/-- The regex word boundary `\b` between two adjacent (optional)
characters: exactly one side is a word character. -/
def bndB (a b : Option Char) : Bool := optWord a != optWord b

/-- Character before position `i`, if any. -/
def prevChar (t : Str) (i : Nat) : Option Char :=
  if i = 0 then none else t.get? (i - 1)

/-- Whether the compiled pattern `\b<w>\b` matches `t` at offset `i`. -/
def wwMatchAt (w t : Str) (i : Nat) : Bool :=
  decide ((t.drop i).take w.length = w) &&
  (match w with
   | [] => bndB (prevChar t i) (t.get? i)
   | c :: _ =>
       bndB (prevChar t i) (some c) &&
       bndB (some (w.getLastD c)) (t.get? (i + w.length)))

/-- `pattern.search(t)` for the compiled pattern `\b<w>\b`. -/
def pySearch (w t : Str) : Bool :=
  (List.range (t.length + 1)).any (fun i => wwMatchAt w t i)

/-- `contains_profanity`: disabled filter or empty loaded blacklist never
flags; otherwise some compiled whole-word pattern matches the lowercased
text. -/
def contains_profanity (cfg : Config) (bl : List Str) (text : Str) : Bool :=
  if !cfg.profanity_filter then false
  else if bl = [] then false
  else bl.any (fun w => pySearch w (lowerL text))

/-- One record of `received_messages.json`, as written by `log_message`:
the timestamp is modelled by its date (a day index), `status_updated` by
an optional update time. -/
structure LogEntry where
  day : Nat
  phone_full : Str
  message : Str
  extracted_name : Str
  status : Str
  status_updated : Option Nat := none
deriving DecidableEq

/-- Audit statuses: the terminal statuses of the `poll_twilio` validation
chain plus the two written later by the display worker through
`update_message_status`. -/
inductive Status
  | blocked | rate_limited | duplicate_name_today | invalid_format
  | not_on_whitelist | profanity | queued | displaying | displayed
deriving DecidableEq

def Status.str : Status → Str
  | .blocked => ("blocked".toList)
  | .displaying => ("displaying".toList)
  | .displayed => ("displayed".toList)
  | .rate_limited => ("rate_limited".toList)
  | .duplicate_name_today => ("duplicate_name_today".toList)
  | .invalid_format => ("invalid_format".toList)
  | .not_on_whitelist => ("not_on_whitelist".toList)
  | .profanity => ("profanity".toList)
  | .queued => ("queued".toList)

/-- `get_message_count`: entries of this phone dated today, any status;
a failed read of the log file (`none`) counts 0. -/
def get_message_count (logsRead : Option (List LogEntry)) (phone : Str)
    (today : Nat) : Nat :=
  match logsRead with
  | none => 0
  | some logs =>
      (logs.filter (fun e => decide (e.phone_full = phone ∧ e.day = today))).length

/-- `has_sent_name_today`: an entry of this phone with the same name
(case-insensitive), status among displayed/displaying/queued, dated
today; a failed read returns false. -/
def has_sent_name_today (logsRead : Option (List LogEntry)) (phone name : Str)
    (today : Nat) : Bool :=
  match logsRead with
  | none => false
  | some logs =>
      logs.any (fun e => decide (e.phone_full = phone ∧
        lowerL e.extracted_name = lowerL name ∧
        (e.status = Status.displayed.str ∨ e.status = Status.displaying.str ∨
          e.status = Status.queued.str) ∧
        e.day = today))

/-- `is_blocked`: membership of the phone in the loaded blocklist. -/
def is_blocked (blk : List Str) (phone : Str) : Bool :=
  decide (phone ∈ blk)

/-- `log_message`: append an entry, then truncate to the most recent 100
(`logs = logs[-100:]`). -/
def log_message (logs : List LogEntry) (today : Nat)
    (phone message name status : Str) : List LogEntry :=
  let l := logs ++ [{ day := today, phone_full := phone, message := message,
                      extracted_name := name, status := status }]
  l.drop (l.length - 100)

/-- Scan a list from the front and rewrite the first element satisfying
`p` (the `for ... break` loop of `update_message_status`, which runs over
`reversed(logs)`). -/
def updFirst (p : LogEntry → Bool) (f : LogEntry → LogEntry) :
    List LogEntry → List LogEntry
  | [] => []
  | e :: es => if p e then f e :: es else e :: updFirst p f es

/-- `update_message_status`: scan `reversed(logs)` (newest first), set the
status and `status_updated` of the first entry whose phone and name match
exactly, leave the rest unchanged. -/
def update_message_status (phone name newStatus : Str) (now : Nat)
    (logs : List LogEntry) : List LogEntry :=
  (updFirst (fun e => decide (e.phone_full = phone ∧ e.extracted_name = name))
    (fun e => { e with status := newStatus, status_updated := some now })
    logs.reverse).reverse

/-- The per-message validation chain of `poll_twilio`, from the block
check to the enqueue, returning the terminal status (`add_to_queue` on a
deque cannot fail, so a full pass yields `queued`). -/
def process_message (cfg : Config) (wl bl blk : List Str)
    (logsRead : Option (List LogEntry)) (today : Nat)
    (phone body : Str) : Status :=
  if is_blocked blk phone then .blocked
  else
    let msg_count := get_message_count logsRead phone today
    if 0 < cfg.max_messages_per_phone ∧ cfg.max_messages_per_phone ≤ msg_count then
      .rate_limited
    else
      let name := extract_name cfg body
      if has_sent_name_today logsRead phone name today then .duplicate_name_today
      else if !is_valid_name cfg name then .invalid_format
      else if !is_on_whitelist cfg wl name then .not_on_whitelist
      else if cfg.profanity_filter && contains_profanity cfg bl body then .profanity
      else .queued

/-- An inbound Twilio message: the SID is modelled as a natural number
ordered by recency. -/
structure TwMsg where
  sid : Nat
  from_ : Str
  body : Str
deriving DecidableEq

/-- State of the polling worker: the `first_run` flag, the in-memory
cursor `last_message_sid`, the sequence of values handed to
`save_last_sid` (earliest first, seeded with the initially persisted
cursor), the SIDs fed to the validation chain, and the audit log. -/
structure PollState where
  firstRun : Bool
  cursor : Option Nat
  persisted : List Nat
  processed : List Nat
  log : List LogEntry
deriving DecidableEq

/-- The scan of the newest-first provider list: collect messages until
one carries the cursor SID (`if last_message_sid and msg.sid == ...:
break`). -/
def newMessages (cursor : Option Nat) (msgs : List TwMsg) : List TwMsg :=
  msgs.takeWhile (fun m => !decide (cursor = some m.sid))

/-- Processing of one new message: run the validation chain against the
current log, append the audit entry (blocked/rate-limited entries log an
empty name, as in the source), and persist the cursor to this message's
SID regardless of the outcome. -/
def procStep (cfg : Config) (wl bl blk : List Str) (today : Nat)
    (st : PollState) (m : TwMsg) : PollState :=
  let status := process_message cfg wl bl blk (some st.log) today m.from_ m.body
  let name : Str :=
    match status with
    | .blocked | .rate_limited => []
    | _ => extract_name cfg m.body
  { st with
    log := log_message st.log today m.from_ m.body name status.str
    cursor := some m.sid
    persisted := st.persisted ++ [m.sid]
    processed := st.processed ++ [m.sid] }

/-- One iteration of the `poll_twilio` loop on a successful fetch
returning `msgs` (newest first): on the first run process nothing and
set/persist the cursor to the newest SID when one exists; otherwise
process the new messages oldest-first.  Returns the new state and the
messages fed to the validation chain. -/
def pollCycle (cfg : Config) (wl bl blk : List Str) (today : Nat)
    (st : PollState) (msgs : List TwMsg) : PollState × List TwMsg :=
  if st.firstRun then
    match msgs with
    | [] => ({ st with firstRun := false }, [])
    | m :: _ =>
        ({ st with firstRun := false, cursor := some m.sid,
                   persisted := st.persisted ++ [m.sid] }, [])
  else
    let news := (newMessages st.cursor msgs).reverse
    (news.foldl (procStep cfg wl bl blk today) st, news)

/-- A sequence of poll iterations. -/
def runPolls (cfg : Config) (wl bl blk : List Str) (today : Nat)
    (st : PollState) : List (List TwMsg) → PollState
  | [] => st
  | w :: ws => runPolls cfg wl bl blk today (pollCycle cfg wl bl blk today st w).1 ws

/-- Strictly descending list of naturals. -/
def descB : List Nat → Bool
  | [] => true
  | [_] => true
  | a :: b :: r => decide (b < a) && descB (b :: r)

/-- Well-formedness of one provider window w.r.t. the current cursor:
SIDs strictly descending (newest first), and when the cursor is set it
either occurs in the window or every window SID is newer — the shape
Twilio's recency-ordered, time-windowed listing guarantees. -/
def okWindow (c : Option Nat) (w : List TwMsg) : Bool :=
  descB (w.map TwMsg.sid) &&
  (match c with
   | none => true
   | some cv => decide (cv ∈ w.map TwMsg.sid) || w.all (fun m => decide (cv < m.sid)))

/-- Well-formedness of a whole poll sequence, each window w.r.t. the
cursor in force when it is fetched. -/
def pollsOk (cfg : Config) (wl bl blk : List Str) (today : Nat)
    (st : PollState) : List (List TwMsg) → Bool
  | [] => true
  | w :: ws =>
      okWindow st.cursor w &&
      pollsOk cfg wl bl blk today (pollCycle cfg wl bl blk today st w).1 ws

/-- The polling state at worker start: `first_run = last_message_sid is
None`, persisted trace seeded with the loaded cursor. -/
def initPollState (c0 : Option Nat) (fr : Bool) (l0 : List LogEntry) : PollState :=
  { firstRun := fr, cursor := c0, persisted := c0.toList, processed := [], log := l0 }

/-- A queued display item (`add_to_queue`). -/
structure QItem where
  name : Str
  phone : Str
  message : Str
deriving DecidableEq

/-- Control state of `display_worker`: at the loop head (where
`stop_display` is read), holding an item with some remaining seconds of
`time.sleep(display_duration)`, or stopped. -/
inductive DWState
  | atLoop
  | holding (item : QItem) (remaining : Nat)
  | stopped
deriving DecidableEq

/-- One atomic step of `display_worker` under stop flag `stop`: the flag
is consulted only in the `while not stop_display` test at the loop head;
each second of the hold is an uninterruptible sleep tick that ignores the
flag. -/
def display_worker_step (cfg : Config) (stop : Bool) :
    DWState × List QItem → DWState × List QItem
  | (.atLoop, q) =>
      if stop then (.stopped, q)
      else
        match q with
        | [] => (.atLoop, [])
        | i :: rest => (.holding i cfg.display_duration, rest)
  | (.holding i r, q) =>
      match r with
      | 0 => (.atLoop, q)
      | r0 + 1 => (.holding i r0, q)
  | (.stopped, q) => (.stopped, q)

/-- Iterate the display worker for `n` steps with a constant stop flag. -/
def dwRun (cfg : Config) (stop : Bool) : Nat → DWState × List QItem → DWState × List QItem
  | 0, s => s
  | n + 1, s => dwRun cfg stop n (display_worker_step cfg stop s)

/-- Title-casing as the specification words it, positionally: a letter is
uppercased exactly when the preceding character, if any, is not a letter;
non-letters pass through.  Each character is paired with its
predecessor. -/
def titleCaseSpec (s : Str) : Str :=
  (s.zip (none :: s.map some)).map (fun cp =>
    if cp.1.isAlpha then
      (if cp.2.elim false Char.isAlpha then cp.1.toLower else cp.1.toUpper)
    else cp.1)

/-- Name extraction as amended from the spec: strip a leading greeting
phrase case-insensitively, remove every character outside
letters/whitespace/hyphens, trim, title-case; a non-empty result is
truncated to the configured maximum length, while an empty result becomes
the literal fallback `"Guest"`, returned untruncated. -/
def extract_name_spec (cfg : Config) (message : Str) : Str :=
  let core := stripL ((stripGreeting (stripL message)).filter keepNameChar)
  if core = [] then ("Guest".toList)
  else (titleCaseSpec core).take cfg.max_message_length

/-- Whole-word occurrence of `w` in `t`: `w` appears at some offset, and
no word character stands immediately before or immediately after the
occurrence. -/
def occursWW (w t : Str) : Prop :=
  ∃ i, i + w.length ≤ t.length ∧ (t.drop i).take w.length = w ∧
    (∀ d, prevChar t i = some d → isWordChar d = false) ∧
    (∀ d, t.get? (i + w.length) = some d → isWordChar d = false)

/-- Invariant of the polling worker state: the SIDs fed to the pipeline
are pairwise distinct, the persisted cursor trace is monotone, and every
recorded SID is bounded by the current cursor. -/
def Inv (st : PollState) : Prop :=
  st.processed.Nodup ∧
  st.persisted.Pairwise (· ≤ ·) ∧
  (∀ p ∈ st.processed, ∃ cv, st.cursor = some cv ∧ p ≤ cv) ∧
  (∀ x ∈ st.persisted, ∃ cv, st.cursor = some cv ∧ x ≤ cv)

/-! ## Theorems -/

/-- C2 (counterexample): the stop signal is NOT checked during the hold.
With `display_duration = 30` and the stop flag raised throughout, a worker
that has just entered the hold is still holding after 29 seconds: shutdown
does have to wait out the full display duration, refuting the claim that
the cancellation signal is checked during the hold. -/
theorem stop_ignored_during_hold_cex :
    (dwRun { display_duration := 30 } true 29
        (DWState.holding ⟨("Bob".toList), ("p".toList), ("Bob".toList)⟩ 30, [])).1 =
      DWState.holding ⟨("Bob".toList), ("p".toList), ("Bob".toList)⟩ 1 ∧
    (dwRun { display_duration := 30 } true 29
        (DWState.holding ⟨("Bob".toList), ("p".toList), ("Bob".toList)⟩ 30, [])).1 ≠
      DWState.stopped := by
  decide

/-- C2 (amended): the stop signal is checked only between cycles, at the
loop head.  A hold step is insensitive to the stop flag; a worker holding
with `r` remaining seconds under a raised stop flag completes the full
hold and only stops at the next loop-head check, `r + 2` steps later; at
the loop head a raised stop flag stops the worker immediately. -/
theorem stop_checked_only_between_cycles (cfg : Config) (stop : Bool)
    (i : QItem) (r : Nat) (q : List QItem) :
    display_worker_step cfg stop (.holding i r, q) =
      display_worker_step cfg false (.holding i r, q) ∧
    display_worker_step cfg true (.atLoop, q) = (.stopped, q) ∧
    dwRun cfg true (r + 2) (.holding i r, q) = (.stopped, q) := by
  refine ⟨rfl, rfl, ?_⟩
  induction r with
  | zero => rfl
  | succ n ih => simpa [dwRun, display_worker_step] using ih

/-- C3: on a first-run poll cycle no returned message is fed to the
validation pipeline and the audit log is untouched; if the provider
returned at least one message the cursor is set and persisted to the
newest (first) returned SID; with no messages the state only clears the
first-run flag. -/
theorem first_poll_establishes_baseline (cfg : Config) (wl bl blk : List Str)
    (today : Nat) (st : PollState) (msgs : List TwMsg)
    (h : st.firstRun = true) :
    (pollCycle cfg wl bl blk today st msgs).2 = [] ∧
    (pollCycle cfg wl bl blk today st msgs).1.log = st.log ∧
    (pollCycle cfg wl bl blk today st msgs).1.processed = st.processed ∧
    (∀ m ms, msgs = m :: ms →
      (pollCycle cfg wl bl blk today st msgs).1.cursor = some m.sid ∧
      (pollCycle cfg wl bl blk today st msgs).1.persisted = st.persisted ++ [m.sid]) ∧
    (msgs = [] → (pollCycle cfg wl bl blk today st msgs).1 = { st with firstRun := false }) := by
  cases msgs with
  | nil => simp [pollCycle, h]
  | cons m ms => simp [pollCycle, h]

/-- C3 witness. -/
theorem first_poll_establishes_baseline_witness :
    (pollCycle {} [] [] [] 0 (initPollState none true [])
        [⟨4, ("p".toList), ("Bob".toList)⟩]).2 = [] ∧
    (pollCycle {} [] [] [] 0 (initPollState none true [])
        [⟨4, ("p".toList), ("Bob".toList)⟩]).1.cursor = some 4 ∧
    (pollCycle {} [] [] [] 0 (initPollState none true [])
        [⟨4, ("p".toList), ("Bob".toList)⟩]).1.log = [] := by
  have h := first_poll_establishes_baseline {} [] [] [] 0 (initPollState none true [])
    [⟨4, ("p".toList), ("Bob".toList)⟩] (by decide)
  exact ⟨h.1, (h.2.2.2.1 _ _ rfl).1, h.2.1⟩

/-- C10: when the audit log cannot be read (`none`), the rate-limit query
returns 0 and the duplicate query returns false, and the pipeline never
rejects a message as `rate_limited` or `duplicate_name_today`: both gates
fail open. -/
theorem unreadable_log_fails_open (cfg : Config) (wl bl blk : List Str)
    (today : Nat) (phone name body : Str) :
    get_message_count none phone today = 0 ∧
    has_sent_name_today none phone name today = false ∧
    process_message cfg wl bl blk none today phone body ≠ Status.rate_limited ∧
    process_message cfg wl bl blk none today phone body ≠ Status.duplicate_name_today := by
  refine ⟨rfl, rfl, ?_, ?_⟩ <;>
  · unfold process_message
    simp only [get_message_count, has_sent_name_today]
    split_ifs <;> simp_all <;> omega

/-- C1 (counterexample): an approved name does NOT bypass the profanity
gate.  Whitelist `{"alice"}` enabled, blacklist `{"alice"}`, body
`"Alice"`: the extracted name passes the whitelist, yet the message is
rejected with status `profanity` because the profanity gate still runs on
the raw body — it is not accepted as the claim states. -/
theorem whitelisted_name_rejected_as_profanity_cex :
    process_message { use_whitelist := true, profanity_filter := true }
        (load_whitelist [("Alice".toList)]) (load_blacklist [("Alice".toList)])
        [] (some []) 0 ("+15551234".toList) ("Alice".toList) = Status.profanity ∧
    process_message { use_whitelist := true, profanity_filter := true }
        (load_whitelist [("Alice".toList)]) (load_blacklist [("Alice".toList)])
        [] (some []) 0 ("+15551234".toList) ("Alice".toList) ≠ Status.queued := by
  decide

/-- C1 (amended): the whitelist gate precedes the profanity gate, but a
whitelisted name does not bypass it.  For a submission that passes every
earlier gate, with whitelist mode enabled and the extracted name a
case-insensitive member of the whitelist, the outcome is decided by the
profanity gate alone: rejected as `profanity` when the enabled blacklist
matches the raw body, accepted (`queued`) otherwise. -/
theorem whitelist_gate_precedes_profanity_gate (cfg : Config)
    (wl bl blk : List Str) (lr : Option (List LogEntry)) (today : Nat)
    (phone body : Str)
    (hb : is_blocked blk phone = false)
    (hr : ¬ (0 < cfg.max_messages_per_phone ∧
          cfg.max_messages_per_phone ≤ get_message_count lr phone today))
    (hd : has_sent_name_today lr phone (extract_name cfg body) today = false)
    (hv : is_valid_name cfg (extract_name cfg body) = true)
    (hw : cfg.use_whitelist = true)
    (hm : stripL (lowerL (extract_name cfg body)) ∈ wl) :
    process_message cfg wl bl blk lr today phone body =
      (if cfg.profanity_filter && contains_profanity cfg bl body
       then Status.profanity else Status.queued) := by
  have hwl : is_on_whitelist cfg wl (extract_name cfg body) = true := by
    unfold is_on_whitelist
    by_cases hnil : wl = []
    · subst hnil; simp at hm
    · simp [hnil, hm, hw]
  unfold process_message
  simp [hb, hr, hd, hv, hwl]

/-- C1 witness. -/
theorem whitelist_gate_precedes_profanity_gate_witness :
    process_message { use_whitelist := true, profanity_filter := true }
        (load_whitelist [("Alice".toList)]) (load_blacklist [("Alice".toList)])
        [] (some []) 0 ("+15550000".toList) ("hi Alice!".toList) =
      (if ({ use_whitelist := true, profanity_filter := true } : Config).profanity_filter
            && contains_profanity { use_whitelist := true, profanity_filter := true }
                (load_blacklist [("Alice".toList)]) ("hi Alice!".toList)
       then Status.profanity else Status.queued) :=
  whitelist_gate_precedes_profanity_gate
    { use_whitelist := true, profanity_filter := true }
    (load_whitelist [("Alice".toList)]) (load_blacklist [("Alice".toList)])
    [] (some []) 0 ("+15550000".toList) ("hi Alice!".toList)
    (by decide) (by decide) (by decide) (by decide) (by decide) (by decide)

/-- C7 (counterexample): the `"Guest"` fallback is not truncated to the
configured maximum length.  With `max_message_length = 3` a body with no
letters extracts to the five-character `"Guest"`, longer than the
configured maximum, refuting "the result is truncated to the configured
maximum length" for the fallback. -/
theorem guest_fallback_not_truncated_cex :
    extract_name { max_message_length := 3 } ("123".toList) = ("Guest".toList) ∧
    ¬ (extract_name { max_message_length := 3 } ("123".toList)).length ≤ 3 := by
  decide

theorem titleCaseAux_eq_spec (s : Str) :
    ∀ (b : Bool) (p : Option Char), p.elim false Char.isAlpha = b →
      titleCaseAux b s =
        (s.zip (p :: s.map some)).map (fun cp =>
          if cp.1.isAlpha then
            (if cp.2.elim false Char.isAlpha then cp.1.toLower else cp.1.toUpper)
          else cp.1) := by
  induction s with
  | nil => intro b p _; rfl
  | cons c cs ih =>
      intro b p hp
      simp only [titleCaseAux, List.map_cons, List.zip_cons_cons, hp]
      exact congrArg _ (ih c.isAlpha (some c) rfl)

/-- C7 (amended): `extract_name` equals the amended specification: strip
greeting, filter the character set, trim, title-case, then truncate a
non-empty result to the configured maximum length and fall back to the
untruncated literal `"Guest"` on an empty one. -/
theorem extract_name_matches_spec (cfg : Config) (message : Str) :
    extract_name cfg message = extract_name_spec cfg message := by
  have htc : ∀ s : Str, titleCase s = titleCaseSpec s := fun s =>
    titleCaseAux_eq_spec s false none rfl
  have hlen : ∀ s : Str, (titleCase s).length = s.length := by
    intro s
    rw [htc]
    simp only [titleCaseSpec, List.length_map, List.length_zip, List.length_cons]
    omega
  unfold extract_name extract_name_spec
  by_cases hc : stripL ((stripGreeting (stripL message)).filter keepNameChar) = []
  · simp [hc]
  · have hne : titleCaseSpec
        (stripL ((stripGreeting (stripL message)).filter keepNameChar)) ≠ [] := by
      intro hz
      apply hc
      have hl := congrArg List.length hz
      rw [← htc, hlen] at hl
      simpa using hl
    simp [hc, htc, hne]

/-- C8: for a non-blocked sender, the pipeline rejects with
`rate_limited` exactly when the configured per-phone maximum is positive
and the number of this sender's audit entries dated today — any status —
reaches it; a maximum of 0 means unlimited, and the message body plays no
part. -/
theorem rate_limit_gate_iff (cfg : Config) (wl bl blk : List Str)
    (logs : List LogEntry) (today : Nat) (phone body : Str)
    (hb : is_blocked blk phone = false) :
    process_message cfg wl bl blk (some logs) today phone body = Status.rate_limited ↔
      0 < cfg.max_messages_per_phone ∧
        cfg.max_messages_per_phone ≤
          (logs.filter (fun e => decide (e.phone_full = phone ∧ e.day = today))).length := by
  have hgc : get_message_count (some logs) phone today =
      (logs.filter (fun e => decide (e.phone_full = phone ∧ e.day = today))).length := rfl
  rw [← hgc]
  unfold process_message
  simp only [hb, Bool.false_eq_true, if_false]
  by_cases hr : 0 < cfg.max_messages_per_phone ∧
      cfg.max_messages_per_phone ≤ get_message_count (some logs) phone today
  · rw [if_pos hr]
    exact iff_of_true rfl hr
  · rw [if_neg hr]
    refine iff_of_false ?_ hr
    split_ifs <;> simp

/-- C8 witness. -/
theorem rate_limit_gate_iff_witness :
    process_message { max_messages_per_phone := 2 } [] [] []
        (some [{ day := 0, phone_full := ("p".toList), message := [],
                 extracted_name := ("Bob".toList), status := Status.queued.str },
               { day := 0, phone_full := ("p".toList), message := [],
                 extracted_name := ("Al".toList), status := Status.profanity.str }])
        0 ("p".toList) ("Some very long sentence".toList) = Status.rate_limited ↔
      0 < (2 : Nat) ∧ (2 : Nat) ≤
        (([{ day := 0, phone_full := ("p".toList), message := [],
             extracted_name := ("Bob".toList), status := Status.queued.str },
           { day := 0, phone_full := ("p".toList), message := [],
             extracted_name := ("Al".toList), status := Status.profanity.str }] :
            List LogEntry).filter
          (fun e => decide (e.phone_full = ("p".toList) ∧ e.day = 0))).length :=
  rate_limit_gate_iff { max_messages_per_phone := 2 } [] [] []
    [{ day := 0, phone_full := ("p".toList), message := [],
       extracted_name := ("Bob".toList), status := Status.queued.str },
     { day := 0, phone_full := ("p".toList), message := [],
       extracted_name := ("Al".toList), status := Status.profanity.str }]
    0 ("p".toList) ("Some very long sentence".toList) (by decide)

/-- C6: for a submission that reaches the duplicate gate (sender not
blocked, not rate-limited), the pipeline rejects with
`duplicate_name_today` exactly when the audit log holds an entry of the
same sender whose extracted name matches case-insensitively, dated today,
with status `queued`, `displaying` or `displayed`; entries with rejected
or blocked statuses never trigger it. -/
theorem duplicate_gate_iff (cfg : Config) (wl bl blk : List Str)
    (logs : List LogEntry) (today : Nat) (phone body : Str)
    (hb : is_blocked blk phone = false)
    (hr : ¬ (0 < cfg.max_messages_per_phone ∧
          cfg.max_messages_per_phone ≤ get_message_count (some logs) phone today)) :
    process_message cfg wl bl blk (some logs) today phone body =
        Status.duplicate_name_today ↔
      ∃ e ∈ logs, e.phone_full = phone ∧
        lowerL e.extracted_name = lowerL (extract_name cfg body) ∧ e.day = today ∧
        (e.status = Status.queued.str ∨ e.status = Status.displaying.str ∨
          e.status = Status.displayed.str) := by
  have hsent : has_sent_name_today (some logs) phone (extract_name cfg body) today = true ↔
      ∃ e ∈ logs, e.phone_full = phone ∧
        lowerL e.extracted_name = lowerL (extract_name cfg body) ∧ e.day = today ∧
        (e.status = Status.queued.str ∨ e.status = Status.displaying.str ∨
          e.status = Status.displayed.str) := by
    simp only [has_sent_name_today, List.any_eq_true, decide_eq_true_eq]
    constructor
    · rintro ⟨e, he, h1, h2, h3, h4⟩
      exact ⟨e, he, h1, h2, h4, by tauto⟩
    · rintro ⟨e, he, h1, h2, h3, h4⟩
      exact ⟨e, he, h1, h2, by tauto, h3⟩
  unfold process_message
  simp only [hb, Bool.false_eq_true, if_false, hr, if_false]
  rw [← hsent]
  by_cases hd : has_sent_name_today (some logs) phone (extract_name cfg body) today = true
  · simp [hd]
  · simp only [Bool.not_eq_true] at hd
    simp only [hd, Bool.false_eq_true, if_false]
    split_ifs <;> simp

/-- C6 witness: the same sender re-submitting "bob" after an accepted
"Bob" the same day trips the gate. -/
theorem duplicate_gate_iff_witness :
    process_message {} [] [] []
        (some [{ day := 0, phone_full := ("p".toList), message := [],
                 extracted_name := ("Bob".toList), status := Status.queued.str }])
        0 ("p".toList) ("bob".toList) = Status.duplicate_name_today ↔
      ∃ e ∈ [({ day := 0, phone_full := ("p".toList), message := [],
                extracted_name := ("Bob".toList), status := Status.queued.str } : LogEntry)],
        e.phone_full = ("p".toList) ∧
        lowerL e.extracted_name = lowerL (extract_name {} ("bob".toList)) ∧ e.day = 0 ∧
        (e.status = Status.queued.str ∨ e.status = Status.displaying.str ∨
          e.status = Status.displayed.str) :=
  duplicate_gate_iff {} [] [] []
    [{ day := 0, phone_full := ("p".toList), message := [],
       extracted_name := ("Bob".toList), status := Status.queued.str }]
    0 ("p".toList) ("bob".toList) (by decide) (by decide)

theorem updFirst_of_forall_not (p : LogEntry → Bool) (f : LogEntry → LogEntry) :
    ∀ l : List LogEntry, (∀ e ∈ l, p e = false) → updFirst p f l = l := by
  intro l h
  induction l with
  | nil => rfl
  | cons e es ih =>
      have he := h e (by simp)
      simp only [updFirst, he, Bool.false_eq_true, if_false]
      rw [ih (fun x hx => h x (by simp [hx]))]

theorem updFirst_append (p : LogEntry → Bool) (f : LogEntry → LogEntry)
    (A : List LogEntry) (e : LogEntry) (B : List LogEntry)
    (hA : ∀ x ∈ A, p x = false) (he : p e = true) :
    updFirst p f (A ++ e :: B) = A ++ f e :: B := by
  induction A with
  | nil => simp [updFirst, he]
  | cons a as ih =>
      have ha := hA a (by simp)
      simp only [List.cons_append, updFirst, ha, Bool.false_eq_true, if_false]
      exact congrArg (List.cons a) (ih (fun x hx => hA x (by simp [hx])))

/-- C9: `update_message_status` scans the log newest-to-oldest (the list
is oldest-first, so from the end): when no entry matches the sender and
name the log is unchanged; otherwise exactly the matching entry with no
match after it (the newest match) gets the new status and the update
timestamp, and every other entry is left unchanged. -/
theorem update_status_frame (phone name newStatus : Str) (now : Nat)
    (logs : List LogEntry) :
    ((∀ e ∈ logs, ¬ (e.phone_full = phone ∧ e.extracted_name = name)) →
      update_message_status phone name newStatus now logs = logs) ∧
    (∀ pre e post, logs = pre ++ e :: post →
      e.phone_full = phone → e.extracted_name = name →
      (∀ x ∈ post, ¬ (x.phone_full = phone ∧ x.extracted_name = name)) →
      update_message_status phone name newStatus now logs =
        pre ++ { e with status := newStatus, status_updated := some now } :: post) := by
  constructor
  · intro h
    unfold update_message_status
    rw [updFirst_of_forall_not _ _ _ (fun x hx => by
      simpa using h x (List.mem_reverse.mp hx))]
    exact List.reverse_reverse logs
  · intro pre e post hsplit hph hnm hpost
    unfold update_message_status
    subst hsplit
    have hrev : (pre ++ e :: post).reverse = post.reverse ++ e :: pre.reverse := by
      simp
    rw [hrev, updFirst_append _ _ _ _ _
      (fun x hx => by simpa using hpost x (List.mem_reverse.mp hx))
      (by simp [hph, hnm])]
    simp

/-- C9 witness: in a three-entry log whose newest and oldest entries both
match, only the newest is updated; a non-matching query leaves the log
unchanged. -/
theorem update_status_frame_witness :
    update_message_status ("p".toList) ("Bob".toList) Status.displaying.str 9
        [{ day := 0, phone_full := ("p".toList), message := [],
           extracted_name := ("Bob".toList), status := Status.queued.str },
         { day := 0, phone_full := ("q".toList), message := [],
           extracted_name := ("Al".toList), status := Status.queued.str },
         { day := 0, phone_full := ("p".toList), message := [],
           extracted_name := ("Bob".toList), status := Status.queued.str }] =
      [{ day := 0, phone_full := ("p".toList), message := [],
         extracted_name := ("Bob".toList), status := Status.queued.str },
       { day := 0, phone_full := ("q".toList), message := [],
         extracted_name := ("Al".toList), status := Status.queued.str },
       { day := 0, phone_full := ("p".toList), message := [],
         extracted_name := ("Bob".toList), status := Status.displaying.str,
         status_updated := some 9 }] ∧
    update_message_status ("p".toList) ("Zed".toList) Status.displaying.str 9
        [{ day := 0, phone_full := ("p".toList), message := [],
           extracted_name := ("Bob".toList), status := Status.queued.str }] =
      [{ day := 0, phone_full := ("p".toList), message := [],
         extracted_name := ("Bob".toList), status := Status.queued.str }] := by
  constructor
  · exact (update_status_frame ("p".toList) ("Bob".toList) Status.displaying.str 9 _).2
      [{ day := 0, phone_full := ("p".toList), message := [],
         extracted_name := ("Bob".toList), status := Status.queued.str },
       { day := 0, phone_full := ("q".toList), message := [],
         extracted_name := ("Al".toList), status := Status.queued.str }]
      { day := 0, phone_full := ("p".toList), message := [],
        extracted_name := ("Bob".toList), status := Status.queued.str }
      [] rfl rfl rfl (by intro x hx; simp at hx)
  · exact (update_status_frame ("p".toList) ("Zed".toList) Status.displaying.str 9 _).1
      (by decide)

theorem optWord_eq_false_iff (a : Option Char) :
    optWord a = false ↔ ∀ d, a = some d → isWordChar d = false := by
  cases a <;> simp [optWord]

theorem bndB_word_right (a : Option Char) (c : Char) (hc : isWordChar c = true) :
    bndB a (some c) = true ↔ optWord a = false := by
  unfold bndB
  have h2 : optWord (some c) = true := hc
  rw [h2]
  cases h : optWord a <;> simp [h]

theorem bndB_word_left (a : Option Char) (c : Char) (hc : isWordChar c = true) :
    bndB (some c) a = true ↔ optWord a = false := by
  unfold bndB
  have h2 : optWord (some c) = true := hc
  rw [h2]
  cases h : optWord a <;> simp [h]

theorem pySearch_iff_occurs (w t : Str) (hne : w ≠ [])
    (hh : isWordChar (w.headD 'x') = true)
    (hl : isWordChar (w.getLastD 'x') = true) :
    pySearch w t = true ↔ occursWW w t := by
  obtain ⟨c, cs, rfl⟩ := List.exists_cons_of_ne_nil hne
  simp only [List.headD_cons] at hh
  rw [List.getLastD_cons] at hl
  unfold pySearch
  rw [List.any_eq_true]
  constructor
  · rintro ⟨i, _, hmatch⟩
    simp only [wwMatchAt, List.getLastD_cons, Bool.and_eq_true, decide_eq_true_eq] at hmatch
    obtain ⟨hsub, hprev, hnext⟩ := hmatch
    refine ⟨i, ?_, hsub, ?_, ?_⟩
    · have hlen := congrArg List.length hsub
      simp only [List.length_take, List.length_drop, List.length_cons] at hlen ⊢
      omega
    · exact (optWord_eq_false_iff _).mp ((bndB_word_right _ c hh).mp hprev)
    · exact (optWord_eq_false_iff _).mp ((bndB_word_left _ _ hl).mp hnext)
  · rintro ⟨i, hle, hsub, hprev, hnext⟩
    refine ⟨i, ?_, ?_⟩
    · rw [List.mem_range]
      have hlc : (c :: cs).length = cs.length + 1 := rfl
      omega
    · simp only [wwMatchAt, List.getLastD_cons, Bool.and_eq_true, decide_eq_true_eq]
      exact ⟨hsub, (bndB_word_right _ c hh).mpr ((optWord_eq_false_iff _).mpr hprev),
        (bndB_word_left _ _ hl).mpr ((optWord_eq_false_iff _).mpr hnext)⟩

/-- C5: with the profanity filter enabled and a non-empty loaded
blacklist whose entries are nonempty lowercase terms beginning and ending
in word characters (the shape `load_blacklist` produces for genuine
profanity terms), a message is flagged exactly when some blacklist entry
occurs as a whole word in the lowercased raw body: substring occurrences
inside larger words never flag. -/
theorem profanity_flags_whole_words_iff (cfg : Config) (bl : List Str) (text : Str)
    (hp : cfg.profanity_filter = true) (hbl : bl ≠ [])
    (hws : ∀ w ∈ bl, w ≠ [] ∧ lowerL w = w ∧
      isWordChar (w.headD 'x') = true ∧ isWordChar (w.getLastD 'x') = true) :
    contains_profanity cfg bl text = true ↔
      ∃ w ∈ bl, occursWW w (lowerL text) := by
  unfold contains_profanity
  rw [if_neg (by simp [hp]), if_neg hbl, List.any_eq_true]
  constructor
  · rintro ⟨w, hw, hsearch⟩
    exact ⟨w, hw, (pySearch_iff_occurs w _ (hws w hw).1 (hws w hw).2.2.1
      (hws w hw).2.2.2).mp hsearch⟩
  · rintro ⟨w, hw, hocc⟩
    exact ⟨w, hw, (pySearch_iff_occurs w _ (hws w hw).1 (hws w hw).2.2.1
      (hws w hw).2.2.2).mpr hocc⟩

/-- C5 witness: blacklist `{"foo"}` — body `"foo bar"` is flagged, body
`"barfoo baz"` is not. -/
theorem profanity_flags_whole_words_iff_witness :
    (contains_profanity {} (load_blacklist [("foo".toList)]) ("foo bar".toList) = true ↔
      ∃ w ∈ load_blacklist [("foo".toList)], occursWW w (lowerL ("foo bar".toList))) ∧
    contains_profanity {} (load_blacklist [("foo".toList)]) ("foo bar".toList) = true ∧
    contains_profanity {} (load_blacklist [("foo".toList)]) ("barfoo baz".toList) = false := by
  refine ⟨profanity_flags_whole_words_iff {} (load_blacklist [("foo".toList)])
    ("foo bar".toList) (by decide) (by decide) (by decide), by decide, by decide⟩

theorem descB_head_gt (a : Nat) (l : List Nat) (h : descB (a :: l) = true) :
    ∀ x ∈ l, x < a := by
  induction l generalizing a with
  | nil => intro x hx; simp at hx
  | cons b r ih =>
      simp only [descB, Bool.and_eq_true, decide_eq_true_eq] at h
      intro x hx
      rcases List.mem_cons.mp hx with rfl | hx1
      · exact h.1
      · exact lt_trans (ih b h.2 x hx1) h.1

theorem descB_tail (a : Nat) (l : List Nat) (h : descB (a :: l) = true) :
    descB l = true := by
  cases l with
  | nil => rfl
  | cons b r =>
      simp only [descB, Bool.and_eq_true] at h
      exact h.2

theorem newMessages_sid_gt (cv : Nat) :
    ∀ msgs : List TwMsg, descB (msgs.map TwMsg.sid) = true →
      (cv ∈ msgs.map TwMsg.sid ∨ ∀ m ∈ msgs, cv < m.sid) →
      ∀ m ∈ newMessages (some cv) msgs, cv < m.sid := by
  intro msgs
  induction msgs with
  | nil => intro _ _ m hm; simp [newMessages] at hm
  | cons a r ih =>
      intro hdesc hcv m hm
      have hdesc1 : descB (List.map TwMsg.sid r) = true :=
        descB_tail _ _ (by simpa using hdesc)
      by_cases hca : cv = a.sid
      · rw [newMessages, List.takeWhile_cons, if_neg (by simp [hca])] at hm
        simp at hm
      · rw [newMessages, List.takeWhile_cons, if_pos (by simp [hca])] at hm
        have hcv1 : cv ∈ List.map TwMsg.sid r ∨ ∀ m ∈ r, cv < m.sid := by
          rcases hcv with hmem | hall
          · left
            rw [List.map_cons] at hmem
            rcases List.mem_cons.mp hmem with h1 | h1
            · exact absurd h1 hca
            · exact h1
          · exact Or.inr fun m hm => hall m (by simp [hm])
        rcases List.mem_cons.mp hm with rfl | hm1
        · rcases hcv with hmem | hall
          · rw [List.map_cons] at hmem
            rcases List.mem_cons.mp hmem with h1 | h1
            · exact absurd h1 hca
            · exact descB_head_gt _ _ (by simpa using hdesc) cv h1
          · exact hall m (by simp)
        · exact ih hdesc1 hcv1 m hm1

theorem descB_pairwise : ∀ l : List TwMsg, descB (l.map TwMsg.sid) = true →
    l.Pairwise (fun a b => b.sid < a.sid) := by
  intro l
  induction l with
  | nil => intro _; exact List.Pairwise.nil
  | cons a r ih =>
      intro h
      refine List.Pairwise.cons ?_ (ih (descB_tail _ _ (by simpa using h)))
      intro b hb
      exact descB_head_gt _ _ (by simpa using h) b.sid (List.mem_map_of_mem _ hb)

theorem newMessages_pairwise (c : Option Nat) (msgs : List TwMsg)
    (h : descB (msgs.map TwMsg.sid) = true) :
    ((newMessages c msgs).reverse).Pairwise (fun a b => a.sid < b.sid) := by
  rw [List.pairwise_reverse]
  exact List.Pairwise.sublist (List.takeWhile_sublist _) (descB_pairwise msgs h)

theorem foldl_procStep_inv (cfg : Config) (wl bl blk : List Str) (today : Nat) :
    ∀ (news : List TwMsg) (st : PollState), Inv st →
      news.Pairwise (fun a b => a.sid < b.sid) →
      (∀ m ∈ news, ∀ cv, st.cursor = some cv → cv < m.sid) →
      Inv (news.foldl (procStep cfg wl bl blk today) st) := by
  intro news
  induction news with
  | nil => intro st h _ _; exact h
  | cons m rest ih =>
      intro st hinv hpw hgt
      rw [List.foldl_cons]
      obtain ⟨hnd, hpp, hpc, hxc⟩ := hinv
      have hcur : ∀ cv, st.cursor = some cv → cv < m.sid := hgt m (by simp)
      apply ih
      · unfold Inv
        refine ⟨?_, ?_, ?_, ?_⟩
        · show (st.processed ++ [m.sid]).Nodup
          rw [List.nodup_append]
          refine ⟨hnd, List.nodup_singleton _, ?_⟩
          intro a ha hb
          rcases List.mem_singleton.mp hb with rfl
          obtain ⟨cv, hcv, hle⟩ := hpc m.sid ha
          exact lt_irrefl _ (lt_of_le_of_lt hle (hcur cv hcv))
        · show (st.persisted ++ [m.sid]).Pairwise (· ≤ ·)
          rw [List.pairwise_append]
          refine ⟨hpp, List.pairwise_singleton _ _, ?_⟩
          intro a ha b hb
          rcases List.mem_singleton.mp hb with rfl
          obtain ⟨cv, hcv, hle⟩ := hxc a ha
          exact le_of_lt (lt_of_le_of_lt hle (hcur cv hcv))
        · show ∀ p ∈ st.processed ++ [m.sid], ∃ cv, some m.sid = some cv ∧ p ≤ cv
          intro p hp
          rcases List.mem_append.mp hp with hp1 | hp1
          · obtain ⟨cv, hcv, hle⟩ := hpc p hp1
            exact ⟨m.sid, rfl, le_of_lt (lt_of_le_of_lt hle (hcur cv hcv))⟩
          · rcases List.mem_singleton.mp hp1 with rfl
            exact ⟨m.sid, rfl, le_refl _⟩
        · show ∀ x ∈ st.persisted ++ [m.sid], ∃ cv, some m.sid = some cv ∧ x ≤ cv
          intro x hx
          rcases List.mem_append.mp hx with hx1 | hx1
          · obtain ⟨cv, hcv, hle⟩ := hxc x hx1
            exact ⟨m.sid, rfl, le_of_lt (lt_of_le_of_lt hle (hcur cv hcv))⟩
          · rcases List.mem_singleton.mp hx1 with rfl
            exact ⟨m.sid, rfl, le_refl _⟩
      · exact (List.pairwise_cons.mp hpw).2
      · intro m1 hm1 cv hcv
        have h2 : m.sid = cv := Option.some.inj hcv
        subst h2
        exact (List.pairwise_cons.mp hpw).1 m1 hm1

theorem pollCycle_inv (cfg : Config) (wl bl blk : List Str) (today : Nat)
    (st : PollState) (w : List TwMsg)
    (hok : okWindow st.cursor w = true) (hinv : Inv st) :
    Inv (pollCycle cfg wl bl blk today st w).1 := by
  have hdesc : descB (w.map TwMsg.sid) = true := by
    have h2 := hok
    unfold okWindow at h2
    rw [Bool.and_eq_true] at h2
    exact h2.1
  cases hfr : st.firstRun with
  | true =>
      cases w with
      | nil =>
          simp only [pollCycle, hfr, if_true]
          obtain ⟨hnd, hpp, hpc, hxc⟩ := hinv
          exact ⟨hnd, hpp, hpc, hxc⟩
      | cons m rest =>
          simp only [pollCycle, hfr, if_true]
          obtain ⟨hnd, hpp, hpc, hxc⟩ := hinv
          have hbound : ∀ cv, st.cursor = some cv → cv ≤ m.sid := by
            intro cv hcv
            rw [hcv] at hok
            simp only [okWindow, Bool.and_eq_true, Bool.or_eq_true, decide_eq_true_eq,
              List.all_eq_true, List.map_cons] at hok
            rcases hok.2 with hmem | hall
            · rcases List.mem_cons.mp hmem with h1 | h1
              · exact le_of_eq h1
              · exact le_of_lt (descB_head_gt _ _ (by simpa using hdesc) cv h1)
            · exact le_of_lt (by simpa using hall m (by simp))
          refine ⟨hnd, ?_, ?_, ?_⟩
          · show (st.persisted ++ [m.sid]).Pairwise (· ≤ ·)
            rw [List.pairwise_append]
            refine ⟨hpp, List.pairwise_singleton _ _, ?_⟩
            intro a ha b hb
            rcases List.mem_singleton.mp hb with rfl
            obtain ⟨cv, hcv, hle⟩ := hxc a ha
            exact le_trans hle (hbound cv hcv)
          · show ∀ p ∈ st.processed, ∃ cv, some m.sid = some cv ∧ p ≤ cv
            intro p hp
            obtain ⟨cv, hcv, hle⟩ := hpc p hp
            exact ⟨m.sid, rfl, le_trans hle (hbound cv hcv)⟩
          · show ∀ x ∈ st.persisted ++ [m.sid], ∃ cv, some m.sid = some cv ∧ x ≤ cv
            intro x hx
            rcases List.mem_append.mp hx with hx1 | hx1
            · obtain ⟨cv, hcv, hle⟩ := hxc x hx1
              exact ⟨m.sid, rfl, le_trans hle (hbound cv hcv)⟩
            · rcases List.mem_singleton.mp hx1 with rfl
              exact ⟨m.sid, rfl, le_refl _⟩
  | false =>
      simp only [pollCycle, hfr, Bool.false_eq_true, if_false]
      apply foldl_procStep_inv cfg wl bl blk today _ st hinv
        (newMessages_pairwise st.cursor w hdesc)
      intro m hm cv hcv
      rw [List.mem_reverse] at hm
      rw [hcv] at hm hok
      unfold okWindow at hok
      simp only [Bool.and_eq_true, Bool.or_eq_true, decide_eq_true_eq,
        List.all_eq_true] at hok
      refine newMessages_sid_gt cv w hdesc ?_ m hm
      rcases hok.2 with hmem | hall
      · exact Or.inl hmem
      · exact Or.inr fun x hx => by simpa using hall x hx

theorem runPolls_inv (cfg : Config) (wl bl blk : List Str) (today : Nat) :
    ∀ (polls : List (List TwMsg)) (st : PollState), Inv st →
      pollsOk cfg wl bl blk today st polls = true →
      Inv (runPolls cfg wl bl blk today st polls) := by
  intro polls
  induction polls with
  | nil => intro st h _; exact h
  | cons w ws ih =>
      intro st hinv hok
      simp only [pollsOk, Bool.and_eq_true] at hok
      exact ih _ (pollCycle_inv cfg wl bl blk today st w hok.1 hinv) hok.2

theorem inv_init (c0 : Option Nat) (fr : Bool) (l0 : List LogEntry) :
    Inv (initPollState c0 fr l0) := by
  unfold Inv initPollState
  cases c0 with
  | none => simp
  | some cv =>
      refine ⟨by simp, by simp, by simp, ?_⟩
      intro x hx
      simp only [Option.toList_some, List.mem_singleton] at hx
      exact ⟨cv, rfl, le_of_eq hx⟩

/-- C4: under well-formed provider windows (SIDs strictly descending,
newest first; the current cursor either occurs in the window or the whole
window is newer, as a recency-ordered time-windowed listing guarantees),
the sequence of persisted cursor values never decreases and no message
SID is fed to the validation pipeline twice; moreover each processed
message sets and persists the cursor to its own SID regardless of the
pipeline outcome. -/
theorem cursor_monotone_never_reprocesses (cfg : Config) (wl bl blk : List Str)
    (today : Nat) (c0 : Option Nat) (fr : Bool) (l0 : List LogEntry)
    (polls : List (List TwMsg))
    (h : pollsOk cfg wl bl blk today (initPollState c0 fr l0) polls = true) :
    (runPolls cfg wl bl blk today (initPollState c0 fr l0) polls).processed.Nodup ∧
    (runPolls cfg wl bl blk today (initPollState c0 fr l0) polls).persisted.Pairwise
      (· ≤ ·) ∧
    (∀ (st : PollState) (m : TwMsg),
      (procStep cfg wl bl blk today st m).cursor = some m.sid ∧
      (procStep cfg wl bl blk today st m).persisted = st.persisted ++ [m.sid]) := by
  have hi := runPolls_inv cfg wl bl blk today polls _ (inv_init c0 fr l0) h
  unfold Inv at hi
  exact ⟨hi.1, hi.2.1, fun st m => ⟨rfl, rfl⟩⟩

/-- C4 witness: cursor at 3, then windows `[5,3]` and `[7,5]`. -/
theorem cursor_monotone_never_reprocesses_witness :
    pollsOk {} [] [] [] 0 (initPollState (some 3) false [])
        [[⟨5, ("p".toList), ("Bob".toList)⟩, ⟨3, ("p".toList), ("Al".toList)⟩],
         [⟨7, ("p".toList), ("Cy".toList)⟩, ⟨5, ("p".toList), ("Bob".toList)⟩]] = true ∧
    (runPolls {} [] [] [] 0 (initPollState (some 3) false [])
        [[⟨5, ("p".toList), ("Bob".toList)⟩, ⟨3, ("p".toList), ("Al".toList)⟩],
         [⟨7, ("p".toList), ("Cy".toList)⟩,
          ⟨5, ("p".toList), ("Bob".toList)⟩]]).processed.Nodup ∧
    (runPolls {} [] [] [] 0 (initPollState (some 3) false [])
        [[⟨5, ("p".toList), ("Bob".toList)⟩, ⟨3, ("p".toList), ("Al".toList)⟩],
         [⟨7, ("p".toList), ("Cy".toList)⟩,
          ⟨5, ("p".toList), ("Bob".toList)⟩]]).persisted.Pairwise (· ≤ ·) :=
  ⟨by decide,
   (cursor_monotone_never_reprocesses {} [] [] [] 0 (some 3) false [] _ (by decide)).1,
   (cursor_monotone_never_reprocesses {} [] [] [] 0 (some 3) false [] _ (by decide)).2.1⟩

end SmsPlugin
